import Mathlib

/-! Shallow embedding of the page-classification and date-extraction core of
`scripts/(1)debug_meeting_organizer.py`.

Text is modelled as `List Char`.  The eight Python regular expressions in
`DebugMeetingMinutesOrganizer.date_patterns` are hand-compiled into
deterministic scanners with the leftmost-match semantics of `re.search`:
for each pattern the greedy/lazy backtracking has been resolved by hand
(for these patterns a greedy character-class run followed by a disjoint
class never benefits from giving characters back, and `{1,2}` quantifiers
followed by a non-digit fail outright on runs of three or more digits).
Character classes are the ASCII ranges the patterns use.  `datetime`
construction is modelled by a proleptic-Gregorian days-in-month check,
since the Python code wraps it in `try/except ValueError` and a
`datetime(year, month, day)` call raises exactly when the day exceeds the
length of the month (the 1900..2100 bound already fits datetime's year
range). -/

/-- ASCII uppercase letter, the `[A-Z]` class. -/
def isUp (c : Char) : Bool := decide (65 ≤ c.toNat ∧ c.toNat ≤ 90)

/-- ASCII lowercase letter, the `[a-z]` class. -/
def isLo (c : Char) : Bool := decide (97 ≤ c.toNat ∧ c.toNat ≤ 122)

/-- ASCII digit, the `\d` class on the ASCII inputs this tool sees. -/
def isDig (c : Char) : Bool := decide (48 ≤ c.toNat ∧ c.toNat ≤ 57)

/-- ASCII whitespace, the `\s` class on ASCII input. -/
def isSp (c : Char) : Bool :=
  decide (c.toNat = 32 ∨ c.toNat = 9 ∨ c.toNat = 10 ∨ c.toNat = 13 ∨
    c.toNat = 11 ∨ c.toNat = 12)

/-- Alphabetic character (`str.isalpha` on the ASCII captures that occur). -/
def isAl (c : Char) : Bool := isUp c || isLo c

/-- `str.isalpha`: nonempty and all alphabetic. -/
def isalphaL (l : List Char) : Bool := !l.isEmpty && l.all isAl

/-- Decimal digit character for a value below ten. -/
def digitChar : Nat → Char
  | 0 => '0'
  | 1 => '1'
  | 2 => '2'
  | 3 => '3'
  | 4 => '4'
  | 5 => '5'
  | 6 => '6'
  | 7 => '7'
  | 8 => '8'
  | 9 => '9'
  | _ => '0'

/-- Decimal rendering, fuel-driven so that the kernel can evaluate it; the
fuel `f` is sufficient whenever `n ≤ f`. -/
def natDigitsF : Nat → Nat → List Char
  | 0, n => [digitChar n]
  | f + 1, n =>
    if n < 10 then [digitChar n]
    else natDigitsF f (n / 10) ++ [digitChar (n % 10)]

/-- Decimal rendering of a natural number, most significant digit first. -/
def natDigits (n : Nat) : List Char := natDigitsF n n

/-- `int(...)` on a string of decimal digits. -/
def digitsVal (l : List Char) : Nat :=
  l.foldl (fun a c => 10 * a + (c.toNat - 48)) 0

/-- Greedy maximal run of characters satisfying `p` (run, remainder). -/
def grabRun (p : Char → Bool) : List Char → List Char × List Char
  | [] => ([], [])
  | c :: cs =>
    if p c then (c :: (grabRun p cs).1, (grabRun p cs).2)
    else ([], c :: cs)

/-- Match a literal character sequence at the head of the input. -/
def chomp : List Char → List Char → Option (List Char)
  | [], s => some s
  | _ :: _, [] => none
  | c :: cs, a :: as => if c = a then chomp cs as else none

/-- The optional comma `,?` of the date patterns. -/
def dropComma (l : List Char) : List Char :=
  match l with
  | [] => []
  | c :: t => if c = ',' then t else c :: t

/-- `re.search`: try the position-anchored matcher at every start position,
leftmost first. -/
def searchPos (f : List Char → Option α) : List Char → Option α
  | [] => f []
  | s@(_ :: rest) =>
    match f s with
    | some v => some v
    | none => searchPos f rest

/-- Lazy `.*?`: find the least expansion (never crossing a newline, since
`re.DOTALL` is off) after which the continuation matches. -/
def lazyScan (f : List Char → Option α) : List Char → Option α
  | [] => f []
  | s@(c :: rest) =>
    match f s with
    | some v => some v
    | none => if c = '\n' then none else lazyScan f rest

/-- Tail `\s+(\d{1,2}),?\s+(\d{4})` shared by patterns 0-2
(day group, year group). -/
def tailDY (r1 : List Char) : Option (List Char × List Char) :=
  let sp1 := grabRun isSp r1
  if sp1.1 = [] then none else
  let dg := grabRun isDig sp1.2
  if dg.1 = [] then none else
  if 3 ≤ dg.1.length then none else
  let r4 := dropComma dg.2
  let sp2 := grabRun isSp r4
  if sp2.1 = [] then none else
  match sp2.2 with
  | a :: b :: c :: d :: _ =>
    if isDig a = true ∧ isDig b = true ∧ isDig c = true ∧ isDig d = true then
      some (dg.1, [a, b, c, d])
    else none
  | _ => none

/-- `([A-Z]+)\s+(\d{1,2}),?\s+(\d{4})`: pattern 2, and the tail of
pattern 0 (`'JANUARY 5, 1971'` comment in the source). -/
def mUpDY (s : List Char) : Option (List Char × List Char × List Char) :=
  let g1 := grabRun isUp s
  if g1.1 = [] then none else
  match tailDY g1.2 with
  | some (dg, yg) => some (g1.1, dg, yg)
  | none => none

/-- Pattern 0: `MEETING\s+OF\s+([A-Z]+)\s+(\d{1,2}),?\s+(\d{4})`. -/
def mAt1 (s : List Char) : Option (List Char × List Char × List Char) :=
  match chomp ("MEETING".data) s with
  | none => none
  | some r0 =>
    let sp1 := grabRun isSp r0
    if sp1.1 = [] then none else
    match chomp ("OF".data) sp1.2 with
    | none => none
    | some r1 =>
      let sp2 := grabRun isSp r1
      if sp2.1 = [] then none else mUpDY sp2.2

/-- Pattern 1: `([A-Z][a-z]+)\s+(\d{1,2}),?\s+(\d{4})`
(`'January 5, 1971'` comment in the source). -/
def mAt2 : List Char → Option (List Char × List Char × List Char)
  | [] => none
  | c :: rest =>
    if isUp c = true then
      let lo := grabRun isLo rest
      if lo.1 = [] then none else
      match tailDY lo.2 with
      | some (dg, yg) => some (c :: lo.1, dg, yg)
      | none => none
    else none

/-- Pattern 3: `(\d{1,2})\s+([A-Z][a-z]+)\s+(\d{4})`. -/
def mAt4 (s : List Char) : Option (List Char × List Char × List Char) :=
  let dg := grabRun isDig s
  if dg.1 = [] then none else
  if 3 ≤ dg.1.length then none else
  let sp1 := grabRun isSp dg.2
  if sp1.1 = [] then none else
  match sp1.2 with
  | [] => none
  | c :: rest =>
    if isUp c = true then
      let lo := grabRun isLo rest
      if lo.1 = [] then none else
      let sp2 := grabRun isSp lo.2
      if sp2.1 = [] then none else
      match sp2.2 with
      | a :: b :: c2 :: d :: _ =>
        if isDig a = true ∧ isDig b = true ∧ isDig c2 = true ∧ isDig d = true then
          some (dg.1, c :: lo.1, [a, b, c2, d])
        else none
      | _ => none
    else none

/-- Pattern 4: `(\d{1,2})/(\d{1,2})/(\d{4})`. -/
def mAt5 (s : List Char) : Option (List Char × List Char × List Char) :=
  let d1 := grabRun isDig s
  if d1.1 = [] then none else
  if 3 ≤ d1.1.length then none else
  match d1.2 with
  | '/' :: r2 =>
    let d2 := grabRun isDig r2
    if d2.1 = [] then none else
    if 3 ≤ d2.1.length then none else
    match d2.2 with
    | '/' :: r4 =>
      match r4 with
      | a :: b :: c :: d :: _ =>
        if isDig a = true ∧ isDig b = true ∧ isDig c = true ∧ isDig d = true then
          some (d1.1, d2.1, [a, b, c, d])
        else none
      | _ => none
    | _ => none
  | _ => none

/-- Pattern 5: `(\d{4})-(\d{1,2})-(\d{1,2})`. -/
def mAt6 (s : List Char) : Option (List Char × List Char × List Char) :=
  match s with
  | a :: b :: c :: d :: r1 =>
    if isDig a = true ∧ isDig b = true ∧ isDig c = true ∧ isDig d = true then
      match r1 with
      | '-' :: r2 =>
        let mg := grabRun isDig r2
        if mg.1 = [] then none else
        if 3 ≤ mg.1.length then none else
        match mg.2 with
        | '-' :: r4 =>
          let dd := grabRun isDig r4
          if dd.1 = [] then none else some ([a, b, c, d], mg.1, dd.1.take 2)
        | _ => none
      | _ => none
    else none
  | _ => none

/-- Tail `([A-Z]+)\s+(\d{1,2}),?\s+(19\d{2})` of patterns 6 and 7. -/
def tail7 (s : List Char) : Option (List Char × List Char × List Char) :=
  let g1 := grabRun isUp s
  if g1.1 = [] then none else
  let sp1 := grabRun isSp g1.2
  if sp1.1 = [] then none else
  let dg := grabRun isDig sp1.2
  if dg.1 = [] then none else
  if 3 ≤ dg.1.length then none else
  let r4 := dropComma dg.2
  let sp2 := grabRun isSp r4
  if sp2.1 = [] then none else
  match sp2.2 with
  | a :: b :: c :: d :: _ =>
    if a = '1' ∧ b = '9' ∧ isDig c = true ∧ isDig d = true then
      some (g1.1, dg.1, [a, b, c, d])
    else none
  | _ => none

/-- Pattern 6: `MEETING.*?([A-Z]+)\s+(\d{1,2}),?\s+(19\d{2})`. -/
def mAt7 (s : List Char) : Option (List Char × List Char × List Char) :=
  match chomp ("MEETING".data) s with
  | none => none
  | some r => lazyScan tail7 r

/-- Pattern 7: `BOARD.*?EDUCATION.*?([A-Z]+)\s+(\d{1,2}),?\s+(19\d{2})`. -/
def mAt8 (s : List Char) : Option (List Char × List Char × List Char) :=
  match chomp ("BOARD".data) s with
  | none => none
  | some r =>
    lazyScan (fun t =>
      match chomp ("EDUCATION".data) t with
      | none => none
      | some r2 => lazyScan tail7 r2) r

/-- `re.search` applied to each compiled pattern. -/
def search1 : List Char → Option (List Char × List Char × List Char) := searchPos mAt1
def search2 : List Char → Option (List Char × List Char × List Char) := searchPos mAt2
def search3 : List Char → Option (List Char × List Char × List Char) := searchPos mUpDY
def search4 : List Char → Option (List Char × List Char × List Char) := searchPos mAt4
def search5 : List Char → Option (List Char × List Char × List Char) := searchPos mAt5
def search6 : List Char → Option (List Char × List Char × List Char) := searchPos mAt6
def search7 : List Char → Option (List Char × List Char × List Char) := searchPos mAt7
def search8 : List Char → Option (List Char × List Char × List Char) := searchPos mAt8

/-- `self.date_patterns`, in the source's priority order. -/
def date_patterns : List (List Char → Option (List Char × List Char × List Char)) :=
  [search1, search2, search3, search4, search5, search6, search7, search8]

/-- `self.month_names`: the fixed month-name table (uppercase keys only). -/
def month_names : List (List Char × Nat) :=
  [("JANUARY".data, 1), ("JAN".data, 1),
   ("FEBRUARY".data, 2), ("FEB".data, 2),
   ("MARCH".data, 3), ("MAR".data, 3),
   ("APRIL".data, 4), ("APR".data, 4),
   ("MAY".data, 5),
   ("JUNE".data, 6), ("JUN".data, 6),
   ("JULY".data, 7), ("JUL".data, 7),
   ("AUGUST".data, 8), ("AUG".data, 8),
   ("SEPTEMBER".data, 9), ("SEP".data, 9), ("SEPT".data, 9),
   ("OCTOBER".data, 10), ("OCT".data, 10),
   ("NOVEMBER".data, 11), ("NOV".data, 11),
   ("DECEMBER".data, 12), ("DEC".data, 12)]

/-- `self.month_names.get(month_str)`: exact (case-sensitive) lookup. -/
def monthNum (s : List Char) : Option Nat := List.lookup s month_names

/-- A parsed (year, month, day) triple, the payload of a successful
`parse_date` (Python returns `datetime(year, month, day)`). -/
structure YMD where
  year : Nat
  month : Nat
  day : Nat
deriving DecidableEq

/-- Proleptic-Gregorian leap year, as `datetime` uses. -/
def isLeapYear (y : Nat) : Bool :=
  decide (y % 4 = 0 ∧ (y % 100 ≠ 0 ∨ y % 400 = 0))

/-- Length of a month, as `datetime` validates the day against. -/
def daysInMonth (y m : Nat) : Nat :=
  if m = 2 then (if isLeapYear y then 29 else 28)
  else if m = 4 ∨ m = 6 ∨ m = 9 ∨ m = 11 then 30
  else 31

/-- The body of the `if matches:` branch of `parse_date`: interpret the three
captured groups (month-name-first / day-first / all-numeric), look the month
name up, apply the `1<=month<=12 and 1<=day<=31 and 1900<=year<=2100` bounds,
and construct the `datetime` (which raises, i.e. yields `none`, when the day
exceeds the month length).  `none` means the loop continues with the next
pattern. -/
def tryGroups (g : List Char × List Char × List Char) : Option YMD :=
  let mdy : Option (Nat × Nat × Nat) :=
    if isalphaL g.1 = true then
      match monthNum g.1 with
      | some m => some (m, digitsVal g.2.1, digitsVal g.2.2)
      | none => none
    else if isalphaL g.2.1 = true then
      match monthNum g.2.1 with
      | some m => some (m, digitsVal g.1, digitsVal g.2.2)
      | none => none
    else some (digitsVal g.1, digitsVal g.2.1, digitsVal g.2.2)
  match mdy with
  | none => none
  | some (m, d, y) =>
    if 1 ≤ m ∧ m ≤ 12 ∧ 1 ≤ d ∧ d ≤ 31 ∧ 1900 ≤ y ∧ y ≤ 2100 then
      if d ≤ daysInMonth y m then some ⟨y, m, d⟩ else none
    else none

/-- Result of one pattern: its leftmost match interpreted by `tryGroups`. -/
def patRes (p : List Char → Option (List Char × List Char × List Char))
    (t : List Char) : Option YMD :=
  match p t with
  | some g => tryGroups g
  | none => none

/-- The `for i, pattern in enumerate(self.date_patterns)` loop of
`parse_date`: first pattern whose leftmost match yields a valid date wins;
a failed match or a rejected date falls through to the next pattern. -/
def parse_date_aux :
    List (List Char → Option (List Char × List Char × List Char)) →
    List Char → Option YMD
  | [], _ => none
  | p :: ps, t =>
    match p t with
    | some g =>
      match tryGroups g with
      | some dte => some dte
      | none => parse_date_aux ps t
    | none => parse_date_aux ps t

/-- `DebugMeetingMinutesOrganizer.parse_date`. -/
def parse_date (t : List Char) : Option YMD := parse_date_aux date_patterns t

/-- The fixed indicator list of `is_meeting_start_page`. -/
def meeting_indicators : List (List Char) :=
  ["MEETING OF".data,
   "THE BOARD OF EDUCATION".data,
   "OKLAHOMA CITY, OKLAHOMA".data,
   "MET IN REGULAR SESSION".data,
   "MET IN ADJOURNED SESSION".data,
   "BOARD OF EDUCATION".data,
   "OKLAHOMA CITY".data]

/-- `pat` matches at the head of the text. -/
def occursAt : List Char → List Char → Bool
  | [], _ => true
  | _ :: _, [] => false
  | a :: ps, b :: s => a == b && occursAt ps s

/-- Python's substring test `pat in text`. -/
def occurs (pat : List Char) : List Char → Bool
  | [] => pat.isEmpty
  | t@(_ :: rest) => occursAt pat t || occurs pat rest

/-- `indicator_count = sum(1 for indicator in meeting_indicators if indicator in text)`. -/
def indicatorCount (t : List Char) : Nat :=
  meeting_indicators.countP (fun ind => occurs ind t)

/-- `DebugMeetingMinutesOrganizer.is_meeting_start_page`:
`indicator_count >= 2 or (has_date and indicator_count >= 1)`. -/
def is_meeting_start_page (t : List Char) : Bool :=
  decide (2 ≤ indicatorCount t) ||
    ((parse_date t).isSome && decide (1 ≤ indicatorCount t))

/-- A page: stable sort key (filename) plus its recognized OCR text. -/
structure Page where
  name : String
  text : List Char
deriving DecidableEq

/-- The `unassigned` bucket's key. -/
def unassignedKey : List Char := "unassigned".data

/-- Zero-pad a decimal rendering to `k` characters (strftime `%Y`/`%m`/`%d`). -/
def padTo (k n : Nat) : List Char :=
  List.replicate (k - (natDigits n).length) '0' ++ natDigits n

/-- `get_folder_name`: `date_obj.strftime("%Y-%m-%d")`. -/
def get_folder_name (d : YMD) : List Char :=
  padTo 4 d.year ++ '-' :: (padTo 2 d.month ++ '-' :: padTo 2 d.day)

/-- One iteration of the `organize_files` loop acting on
`self.current_meeting_folder`: a boundary page with a parseable date opens
the group named by that date; a boundary page without a date, or a
non-boundary page, leaves the open group unchanged. -/
def stepState (s : Option (List Char)) (t : List Char) : Option (List Char) :=
  if is_meeting_start_page t = true then
    match parse_date t with
    | some dte => some (get_folder_name dte)
    | none => s
  else s

/-- Destination of a page copied under state `s`: the open meeting folder,
or `unassigned` when none has been opened. -/
def assignOf (s : Option (List Char)) : List Char := s.getD unassignedKey

/-- The `organize_files` loop over the sorted pages: every page is emitted
with the group that is open at the moment it is visited. -/
def organizeFrom : Option (List Char) → List Page → List (List Char × Page)
  | _, [] => []
  | s, p :: ps =>
    (assignOf (stepState s p.text), p) :: organizeFrom (stepState s p.text) ps

/-- Code-point lexicographic "less than" on character lists: the order in
which Python sorts the image filenames of one directory. -/
def lexLt : List Char → List Char → Bool
  | [], [] => false
  | [], _ :: _ => true
  | _ :: _, [] => false
  | a :: as, b :: bs =>
    if a.toNat < b.toNat then true
    else if b.toNat < a.toNat then false
    else lexLt as bs

/-- Filename order used by `image_files.sort()`: `a` before or at `b`. -/
def pageLe (a b : Page) : Bool := !lexLt b.name.data a.name.data

/-- Strict filename order between pages. -/
def pageLt (a b : Page) : Prop := lexLt a.name.data b.name.data = true

/-- Insert a page into a name-sorted list. -/
def orderedInsert (p : Page) : List Page → List Page
  | [] => [p]
  | q :: qs => if pageLe p q then p :: q :: qs else q :: orderedInsert p qs

/-- `image_files.sort()`: sort the pages by filename. -/
def sortPages : List Page → List Page
  | [] => []
  | p :: ps => orderedInsert p (sortPages ps)

/-- `self.current_meeting_folder` as `__init__` sets it: no open group. -/
def initState : Option (List Char) := none

/-- `DebugMeetingMinutesOrganizer.organize_files`: sort the pages by
filename, then route each page, starting from the freshly initialized
state. -/
def organize_files (ps : List Page) : List (List Char × Page) :=
  organizeFrom initState (sortPages ps)

/-- The open-group state after processing a list of pages from state `s`. -/
def stateAfter (s : Option (List Char)) (ps : List Page) : Option (List Char) :=
  ps.foldl (fun st p => stepState st p.text) s

/-- Uppercase rendering "MONTH D, YYYY" of a date triple, the shape in which
a month-name date reaches `parse_date` after the OCR text is upper-cased. -/
def monthName : Nat → List Char
  | 1 => "JANUARY".data
  | 2 => "FEBRUARY".data
  | 3 => "MARCH".data
  | 4 => "APRIL".data
  | 5 => "MAY".data
  | 6 => "JUNE".data
  | 7 => "JULY".data
  | 8 => "AUGUST".data
  | 9 => "SEPTEMBER".data
  | 10 => "OCTOBER".data
  | 11 => "NOVEMBER".data
  | 12 => "DECEMBER".data
  | _ => []

/-- Format a (year, month, day) triple as "MONTH D, YYYY". -/
def fmtDate (y m d : Nat) : List Char :=
  monthName m ++ ' ' :: (natDigits d ++ ',' :: ' ' :: natDigits y)

/-- No adjacent occurrence of 'T' then 'I' (used to rule the literal
`MEETING` out of formatted dates). -/
def noTI : List Char → Bool
  | [] => true
  | [_] => true
  | a :: b :: rest => !(a == 'T' && b == 'I') && noTI (b :: rest)

example : parse_date ("MEETING OF JANUARY 5, 1971".data) = some ⟨1971, 1, 5⟩ := by decide
example : parse_date ("JANUARY 5, 1971".data) = some ⟨1971, 1, 5⟩ := by decide
example : parse_date ("January 5, 1971".data) = none := by decide
example : parse_date ("FEBRUARY 31, 1971".data) = none := by decide
example : parse_date ("12/25/1971".data) = some ⟨1971, 12, 25⟩ := by decide
example : parse_date ("1971-5-6".data) = none := by decide
example : parse_date ("XYZ 5, 1971 12/25/1971".data) = some ⟨1971, 12, 25⟩ := by decide
example : parse_date ("5 January 1971".data) = none := by decide
example : is_meeting_start_page ("THE BOARD OF EDUCATION".data) = true := by decide
example : is_meeting_start_page ("OKLAHOMA CITY".data) = false := by decide
example : fmtDate 1971 1 5 = "JANUARY 5, 1971".data := by decide
example : get_folder_name ⟨1971, 1, 5⟩ = "1971-01-05".data := by decide

theorem isDig_iff {c : Char} : isDig c = true ↔ 48 ≤ c.toNat ∧ c.toNat ≤ 57 := by
  simp [isDig]

theorem isUp_iff {c : Char} : isUp c = true ↔ 65 ≤ c.toNat ∧ c.toNat ≤ 90 := by
  simp [isUp]

theorem isLo_eq_false {c : Char} (h : isLo c = false) : c.toNat < 97 ∨ 122 < c.toNat := by
  simp [isLo] at h; omega

theorem isDig_not_sp {c : Char} (h : isDig c = true) : isSp c = false := by
  rw [isDig_iff] at h
  simp only [isSp, decide_eq_false_iff_not]
  omega

theorem isDig_not_up {c : Char} (h : isDig c = true) : isUp c = false := by
  rw [isDig_iff] at h
  simp only [isUp, decide_eq_false_iff_not]
  omega

theorem isDig_not_lo {c : Char} (h : isDig c = true) : isLo c = false := by
  rw [isDig_iff] at h
  simp only [isLo, decide_eq_false_iff_not]
  omega

theorem isUp_not_lo {c : Char} (h : isUp c = true) : isLo c = false := by
  rw [isUp_iff] at h
  simp only [isLo, decide_eq_false_iff_not]
  omega

theorem isDig_ne_T {c : Char} (h : isDig c = true) : c ≠ 'T' := by
  intro hc; subst hc; exact absurd h (by decide)

theorem digitChar_isDig {k : Nat} (h : k ≤ 9) : isDig (digitChar k) = true := by
  interval_cases k <;> decide

theorem digitChar_val {k : Nat} (h : k ≤ 9) : (digitChar k).toNat - 48 = k := by
  interval_cases k <;> decide

theorem natDigitsF_small {f n : Nat} (h : n < 10) : natDigitsF f n = [digitChar n] := by
  cases f <;> simp [natDigitsF, h]

theorem natDigitsF_congr (n : Nat) :
    ∀ f g, n ≤ f → n ≤ g → natDigitsF f n = natDigitsF g n := by
  induction n using Nat.strong_induction_on with
  | _ n ih =>
    intro f g hf hg
    by_cases h : n < 10
    · rw [natDigitsF_small h, natDigitsF_small h]
    · have h10 : 10 ≤ n := by omega
      obtain ⟨f', rfl⟩ : ∃ f', f = f' + 1 := ⟨f - 1, by omega⟩
      obtain ⟨g', rfl⟩ : ∃ g', g = g' + 1 := ⟨g - 1, by omega⟩
      simp only [natDigitsF, if_neg h]
      rw [ih (n / 10) (by omega) f' g' (by omega) (by omega)]

theorem natDigits_small {n : Nat} (h : n < 10) : natDigits n = [digitChar n] := by
  rw [natDigits, natDigitsF_small h]

theorem natDigits_step {n : Nat} (h : 10 ≤ n) :
    natDigits n = natDigits (n / 10) ++ [digitChar (n % 10)] := by
  rw [natDigits]
  obtain ⟨k, rfl⟩ : ∃ k, n = k + 1 := ⟨n - 1, by omega⟩
  simp only [natDigitsF, if_neg (show ¬ k + 1 < 10 by omega)]
  rw [natDigitsF_congr ((k + 1) / 10) k ((k + 1) / 10) (by omega) (by omega)]
  rfl

theorem natDigits_two {n : Nat} (h1 : 10 ≤ n) (h2 : n < 100) :
    natDigits n = [digitChar (n / 10), digitChar (n % 10)] := by
  rw [natDigits_step h1, natDigits_small (by omega)]
  rfl

theorem natDigits_four {n : Nat} (h1 : 1000 ≤ n) (h2 : n < 10000) :
    natDigits n = [digitChar (n / 1000), digitChar (n / 100 % 10),
      digitChar (n / 10 % 10), digitChar (n % 10)] := by
  have e1 : n / 10 / 10 = n / 100 := by omega
  have e2 : n / 100 / 10 = n / 1000 := by omega
  rw [natDigits_step (show 10 ≤ n by omega),
    natDigits_step (show 10 ≤ n / 10 by omega), e1,
    natDigits_two (show 10 ≤ n / 100 by omega) (show n / 100 < 100 by omega), e2]
  rfl

theorem digitsVal_natDigits31 {d : Nat} (h1 : 1 ≤ d) (h2 : d ≤ 31) :
    digitsVal (natDigits d) = d := by
  by_cases h : d < 10
  · rw [natDigits_small h]
    simp [digitsVal, digitChar_val (show d ≤ 9 by omega)]
  · rw [natDigits_two (by omega) (by omega)]
    simp [digitsVal, List.foldl, digitChar_val (show d / 10 ≤ 9 by omega),
      digitChar_val (show d % 10 ≤ 9 by omega)]
    omega

theorem digitsVal_natDigits_year {y : Nat} (h1 : 1900 ≤ y) (h2 : y ≤ 2100) :
    digitsVal (natDigits y) = y := by
  rw [natDigits_four (by omega) (by omega)]
  simp [digitsVal, List.foldl, digitChar_val (show y / 1000 ≤ 9 by omega),
    digitChar_val (show y / 100 % 10 ≤ 9 by omega),
    digitChar_val (show y / 10 % 10 ≤ 9 by omega),
    digitChar_val (show y % 10 ≤ 9 by omega)]
  omega

theorem natDigits31_facts {d : Nat} (h1 : 1 ≤ d) (h2 : d ≤ 31) :
    natDigits d ≠ [] ∧ (∀ c ∈ natDigits d, isDig c = true) ∧
      (natDigits d).length ≤ 2 := by
  by_cases h : d < 10
  · rw [natDigits_small h]
    refine ⟨by simp, ?_, by simp⟩
    intro c hc
    simp at hc
    subst hc
    exact digitChar_isDig (by omega)
  · rw [natDigits_two (by omega) (by omega)]
    refine ⟨by simp, ?_, by simp⟩
    intro c hc
    simp at hc
    rcases hc with hc | hc <;> subst hc
    · exact digitChar_isDig (by omega)
    · exact digitChar_isDig (by omega)

theorem grabRun_cons_neg {p : Char → Bool} {c : Char} {l : List Char}
    (h : p c = false) : grabRun p (c :: l) = ([], c :: l) := by
  simp [grabRun, h]

theorem grabRun_all {p : Char → Bool} {xs ys : List Char}
    (h : ∀ c ∈ xs, p c = true) :
    grabRun p (xs ++ ys) = (xs ++ (grabRun p ys).1, (grabRun p ys).2) := by
  induction xs with
  | nil => simp
  | cons c cs ih =>
    have hc : p c = true := h c (by simp)
    simp only [List.cons_append, List.append_eq, grabRun, hc, if_true]
    rw [ih (fun x hx => h x (by simp [hx]))]

theorem grabRun_split {p : Char → Bool} {xs : List Char} {y : Char} {l : List Char}
    (h1 : ∀ c ∈ xs, p c = true) (h2 : p y = false) :
    grabRun p (xs ++ y :: l) = (xs, y :: l) := by
  rw [grabRun_all h1, grabRun_cons_neg h2]
  simp

theorem grabRun_mem {p : Char → Bool} :
    ∀ {l : List Char} {c : Char}, c ∈ (grabRun p l).1 → p c = true := by
  intro l
  induction l with
  | nil => intro c hc; simp [grabRun] at hc
  | cons a as ih =>
    intro c hc
    by_cases ha : p a = true
    · simp only [grabRun, ha, if_true] at hc
      rcases List.mem_cons.mp hc with h | h
      · subst h; exact ha
      · exact ih h
    · rw [grabRun_cons_neg (by simpa using ha)] at hc
      simp at hc

theorem chomp_some : ∀ {pat s r : List Char}, chomp pat s = some r → s = pat ++ r := by
  intro pat
  induction pat with
  | nil =>
    intro s r h
    simp [chomp] at h
    simp [h]
  | cons c cs ih =>
    intro s r h
    cases s with
    | nil => simp [chomp] at h
    | cons a as =>
      simp only [chomp] at h
      by_cases hca : c = a
      · rw [if_pos hca] at h
        subst hca
        rw [List.cons_append, ih h]
      · rw [if_neg hca] at h
        exact absurd h (by simp)

theorem searchPos_head {α : Type} {f : List Char → Option α} {s : List Char} {v : α}
    (h : f s = some v) : searchPos f s = some v := by
  cases s <;> simp [searchPos, h]

theorem searchPos_split {α : Type} {f : List Char → Option α} :
    ∀ {s : List Char} {v : α}, searchPos f s = some v →
      ∃ u t, s = u ++ t ∧ f t = some v := by
  intro s
  induction s with
  | nil =>
    intro v h
    exact ⟨[], [], rfl, by simpa [searchPos] using h⟩
  | cons c rest ih =>
    intro v h
    simp only [searchPos] at h
    cases hf : f (c :: rest) with
    | some w =>
      rw [hf] at h
      simp at h
      subst h
      exact ⟨[], c :: rest, rfl, hf⟩
    | none =>
      rw [hf] at h
      simp at h
      obtain ⟨u, t, hs, ht⟩ := ih h
      exact ⟨c :: u, t, by rw [List.cons_append, hs], ht⟩

theorem occursAt_of_app {p r : List Char} : occursAt p (p ++ r) = true := by
  induction p with
  | nil => simp [occursAt]
  | cons c cs ih => simp [occursAt, ih]

theorem occurs_nil {v : List Char} : occurs [] v = true := by
  cases v <;> simp [occurs, occursAt]

theorem occurs_head {p t r : List Char} (h : t = p ++ r) : occurs p t = true := by
  subst h
  cases p with
  | nil => exact occurs_nil
  | cons a as =>
    simp only [List.cons_append, occurs, Bool.or_eq_true]
    left
    have := occursAt_of_app (p := a :: as) (r := r)
    simpa using this

theorem occurs_of_split : ∀ {u p v t : List Char}, t = u ++ p ++ v →
    occurs p t = true := by
  intro u
  induction u with
  | nil =>
    intro p v t h
    exact occurs_head (by simpa using h)
  | cons c cs ih =>
    intro p v t h
    subst h
    have hrec : occurs p (cs ++ p ++ v) = true := ih rfl
    simp only [List.cons_append, List.append_eq, occurs, Bool.or_eq_true]
    right
    simpa using hrec

theorem occursAt_split : ∀ {p t : List Char}, occursAt p t = true → ∃ r, t = p ++ r := by
  intro p
  induction p with
  | nil => intro t _; exact ⟨t, rfl⟩
  | cons c cs ih =>
    intro t h
    cases t with
    | nil => simp [occursAt] at h
    | cons a as =>
      simp only [occursAt, Bool.and_eq_true, beq_iff_eq] at h
      obtain ⟨rfl, h2⟩ := h
      obtain ⟨r, hr⟩ := ih h2
      exact ⟨r, by rw [List.cons_append, hr]⟩

theorem occurs_split : ∀ {t p : List Char}, occurs p t = true → ∃ u v, t = u ++ p ++ v := by
  intro t
  induction t with
  | nil =>
    intro p h
    simp only [occurs, List.isEmpty_iff] at h
    exact ⟨[], [], by simp [h]⟩
  | cons c rest ih =>
    intro p h
    simp only [occurs, Bool.or_eq_true] at h
    rcases h with h | h
    · obtain ⟨r, hr⟩ := occursAt_split h
      exact ⟨[], r, by simp [hr]⟩
    · obtain ⟨u, v, huv⟩ := ih h
      exact ⟨c :: u, v, by simp [huv]⟩

theorem occurs_trans {a b t : List Char} (h1 : occurs a b = true)
    (h2 : occurs b t = true) : occurs a t = true := by
  obtain ⟨u1, v1, rfl⟩ := occurs_split h1
  obtain ⟨u2, v2, rfl⟩ := occurs_split h2
  exact occurs_of_split (u := u2 ++ u1) (v := v1 ++ v2) (by simp)

theorem noTI_cons_of {a : Char} {l : List Char} (h1 : a ≠ 'T') (h2 : noTI l = true) :
    noTI (a :: l) = true := by
  cases l with
  | nil => rfl
  | cons b r =>
    simp only [noTI, Bool.and_eq_true, Bool.not_eq_true']
    refine ⟨?_, h2⟩
    simp [h1]

theorem noTI_TI_false : ∀ (u v : List Char), noTI (u ++ 'T' :: 'I' :: v) = false := by
  intro u
  induction u with
  | nil => intro v; simp [noTI]
  | cons a u' ih =>
    intro v
    have hne : u' ++ 'T' :: 'I' :: v ≠ [] := by simp
    obtain ⟨b, r, hb⟩ := List.exists_cons_of_ne_nil hne
    simp only [List.cons_append, hb, noTI, Bool.and_eq_false_iff]
    right
    rw [← hb]
    exact ih v

theorem noTI_digits {l : List Char} (h : ∀ c ∈ l, isDig c = true) : noTI l = true := by
  induction l with
  | nil => rfl
  | cons c cs ih =>
    exact noTI_cons_of (isDig_ne_T (h c (by simp)))
      (ih (fun x hx => h x (by simp [hx])))

theorem noTI_digits_append {xs l : List Char} (hd : ∀ c ∈ xs, isDig c = true)
    (h : noTI l = true) : noTI (xs ++ l) = true := by
  induction xs with
  | nil => simpa
  | cons c cs ih =>
    rw [List.cons_append]
    exact noTI_cons_of (isDig_ne_T (hd c (by simp)))
      (ih (fun x hx => hd x (by simp [hx])))

theorem noTI_tail {a : Char} {l : List Char} (h : noTI (a :: l) = true) : noTI l = true := by
  cases l with
  | nil => rfl
  | cons b r =>
    simp only [noTI, Bool.and_eq_true] at h
    exact h.2

theorem noTI_append : ∀ {xs : List Char} {y : Char} {l : List Char},
    noTI xs = true → noTI (y :: l) = true →
    (xs.getLast? = some 'T' → y ≠ 'I') → noTI (xs ++ y :: l) = true := by
  intro xs
  induction xs with
  | nil => intro y l _ h2 _; simpa
  | cons a xs' ih =>
    intro y l h1 h2 h3
    cases xs' with
    | nil =>
      simp only [List.cons_append, List.nil_append, noTI, Bool.and_eq_true,
        Bool.not_eq_true']
      refine ⟨?_, h2⟩
      by_cases ha : a = 'T'
      · have hy : y ≠ 'I' := h3 (by simp [ha, List.getLast?])
        simp [hy]
      · simp [ha]
    | cons b r =>
      have hh : (a == 'T' && b == 'I') = false := by
        cases hab : (a == 'T' && b == 'I') with
        | false => rfl
        | true =>
          simp only [Bool.and_eq_true, beq_iff_eq] at hab
          obtain ⟨rfl, rfl⟩ := hab
          simp [noTI] at h1
      have h1' : noTI (b :: r) = true := noTI_tail h1
      have hrec : noTI ((b :: r) ++ y :: l) = true :=
        ih h1' h2 (fun hl => h3 (by rw [List.getLast?_cons_cons]; exact hl))
      simp only [List.cons_append] at hrec ⊢
      simp only [noTI, Bool.and_eq_true, Bool.not_eq_true']
      exact ⟨hh, hrec⟩

theorem mAt2_none_of_noLo {s : List Char} (h : ∀ c ∈ s, isLo c = false) :
    mAt2 s = none := by
  cases s with
  | nil => rfl
  | cons c rest =>
    simp only [mAt2]
    by_cases hu : isUp c = true
    · rw [if_pos hu]
      cases rest with
      | nil => simp [grabRun]
      | cons b r =>
        rw [grabRun_cons_neg (h b (by simp))]
        simp
    · rw [if_neg hu]

theorem search2_none_of_noLo {s : List Char} (h : ∀ c ∈ s, isLo c = false) :
    search2 s = none := by
  induction s with
  | nil => rfl
  | cons c rest ih =>
    show searchPos mAt2 (c :: rest) = none
    simp only [searchPos]
    rw [mAt2_none_of_noLo h]
    exact ih (fun x hx => h x (by simp [hx]))

theorem mAt1_chomp {s : List Char} {g : List Char × List Char × List Char}
    (h : mAt1 s = some g) : ∃ r, s = "MEETING".data ++ r := by
  simp only [mAt1] at h
  cases hc : chomp ("MEETING".data) s with
  | none => rw [hc] at h; exact absurd h (by simp)
  | some r => exact ⟨r, chomp_some hc⟩

theorem search1_none_of_noTI {s : List Char} (h : noTI s = true) :
    search1 s = none := by
  cases hs : search1 s with
  | none => rfl
  | some v =>
    exfalso
    obtain ⟨u, t, rfl, ht⟩ := searchPos_split hs
    obtain ⟨r, hr⟩ := mAt1_chomp ht
    have hMEET : "MEETING".data = ['M', 'E', 'E'] ++ 'T' :: 'I' :: ['N', 'G'] := rfl
    rw [hr, hMEET] at h
    have hfalse : noTI ((u ++ ['M', 'E', 'E']) ++ 'T' :: 'I' :: (['N', 'G'] ++ r)) = false :=
      noTI_TI_false (u ++ ['M', 'E', 'E']) (['N', 'G'] ++ r)
    simp only [List.append_assoc, List.cons_append, List.nil_append,
      List.append_eq] at h hfalse
    rw [h] at hfalse
    exact absurd hfalse (by simp)

theorem tailDY_eval {D : List Char} {a b c e : Char}
    (hD : D ≠ []) (hDd : ∀ x ∈ D, isDig x = true) (hDl : D.length ≤ 2)
    (ha : isDig a = true) (hb : isDig b = true) (hc : isDig c = true)
    (he : isDig e = true) :
    tailDY (' ' :: (D ++ ',' :: ' ' :: [a, b, c, e])) = some (D, [a, b, c, e]) := by
  obtain ⟨d0, D', rfl⟩ := List.exists_cons_of_ne_nil hD
  have e1 : grabRun isSp (' ' :: (d0 :: D' ++ ',' :: ' ' :: [a, b, c, e])) =
      ([' '], d0 :: (D' ++ ',' :: ' ' :: [a, b, c, e])) := by
    have := @grabRun_split isSp [' '] d0 (D' ++ ',' :: ' ' :: [a, b, c, e])
      (by intro x hx; simp at hx; subst hx; decide)
      (isDig_not_sp (hDd d0 (by simp)))
    simpa using this
  have e2 : grabRun isDig (d0 :: (D' ++ ',' :: ' ' :: [a, b, c, e])) =
      (d0 :: D', ',' :: ' ' :: [a, b, c, e]) := by
    have := @grabRun_split isDig (d0 :: D') ',' (' ' :: [a, b, c, e]) hDd (by decide)
    simpa using this
  have e3 : grabRun isSp (' ' :: [a, b, c, e]) = ([' '], [a, b, c, e]) := by
    have := @grabRun_split isSp [' '] a [b, c, e]
      (by intro x hx; simp at hx; subst hx; decide) (isDig_not_sp ha)
    simpa using this
  simp only [tailDY, e1, e2]
  rw [if_neg (by simp)]
  rw [if_neg (by simp)]
  rw [if_neg (show ¬ 3 ≤ (d0 :: D').length by omega)]
  have e4 : dropComma [',', ' ', a, b, c, e] = [' ', a, b, c, e] := by
    simp [dropComma]
  simp only [e4, e3]
  rw [if_neg (by simp)]
  simp [ha, hb, hc, he]

theorem mUpDY_fmt {M D : List Char} {a b c e : Char}
    (hM : M ≠ []) (hMu : ∀ x ∈ M, isUp x = true)
    (hD : D ≠ []) (hDd : ∀ x ∈ D, isDig x = true) (hDl : D.length ≤ 2)
    (ha : isDig a = true) (hb : isDig b = true) (hc : isDig c = true)
    (he : isDig e = true) :
    mUpDY (M ++ ' ' :: (D ++ ',' :: ' ' :: [a, b, c, e])) =
      some (M, D, [a, b, c, e]) := by
  have e0 : grabRun isUp (M ++ ' ' :: (D ++ ',' :: ' ' :: [a, b, c, e])) =
      (M, ' ' :: (D ++ ',' :: ' ' :: [a, b, c, e])) :=
    grabRun_split hMu (by decide)
  simp only [mUpDY, e0]
  rw [if_neg (by simpa using hM)]
  rw [tailDY_eval hD hDd hDl ha hb hc he]

theorem patRes_none_of_search {p : List Char → Option (List Char × List Char × List Char)}
    {t : List Char} (h : p t = none) : patRes p t = none := by
  simp [patRes, h]

theorem parse_date_aux_skip {p : List Char → Option (List Char × List Char × List Char)}
    {ps : List (List Char → Option (List Char × List Char × List Char))}
    {t : List Char} (h : patRes p t = none) :
    parse_date_aux (p :: ps) t = parse_date_aux ps t := by
  simp only [parse_date_aux]
  cases hp : p t with
  | none => rfl
  | some g =>
    simp only [patRes, hp] at h
    simp [h]

theorem parse_date_aux_head {p : List Char → Option (List Char × List Char × List Char)}
    {ps : List (List Char → Option (List Char × List Char × List Char))}
    {t : List Char} {d : YMD} (h : patRes p t = some d) :
    parse_date_aux (p :: ps) t = some d := by
  simp only [parse_date_aux]
  cases hp : p t with
  | none => simp [patRes, hp] at h
  | some g =>
    simp only [patRes, hp] at h
    simp [h]

theorem parse_date_aux_app_none :
    ∀ {ps1 ps2 : List (List Char → Option (List Char × List Char × List Char))}
      {t : List Char}, (∀ q ∈ ps1, patRes q t = none) →
      parse_date_aux (ps1 ++ ps2) t = parse_date_aux ps2 t := by
  intro ps1
  induction ps1 with
  | nil => intro ps2 t _; rfl
  | cons p ps ih =>
    intro ps2 t h
    rw [List.cons_append, parse_date_aux_skip (h p (by simp))]
    exact ih (fun q hq => h q (by simp [hq]))

theorem parse_date_aux_none :
    ∀ {ps : List (List Char → Option (List Char × List Char × List Char))}
      {t : List Char}, (∀ q ∈ ps, patRes q t = none) → parse_date_aux ps t = none := by
  intro ps
  induction ps with
  | nil => intro t _; rfl
  | cons p ps ih =>
    intro t h
    rw [parse_date_aux_skip (h p (by simp))]
    exact ih (fun q hq => h q (by simp [hq]))

theorem isalphaL_of_upper {M : List Char} (hM : M ≠ [])
    (hMu : ∀ x ∈ M, isUp x = true) : isalphaL M = true := by
  simp only [isalphaL, Bool.and_eq_true, Bool.not_eq_true', List.all_eq_true]
  constructor
  · cases M with
    | nil => exact absurd rfl hM
    | cons a as => rfl
  · intro x hx
    simp [isAl, hMu x hx]

theorem tryGroups_eval {M D Y : List Char} {mn y d : Nat}
    (hal : isalphaL M = true) (hmn : monthNum M = some mn)
    (hD : digitsVal D = d) (hY : digitsVal Y = y)
    (hb : 1 ≤ mn ∧ mn ≤ 12 ∧ 1 ≤ d ∧ d ≤ 31 ∧ 1900 ≤ y ∧ y ≤ 2100)
    (hcal : d ≤ daysInMonth y mn) :
    tryGroups (M, D, Y) = some ⟨y, mn, d⟩ := by
  simp only [tryGroups, hal, if_true, hmn, hD, hY]
  rw [if_pos hb, if_pos hcal]

theorem daysInMonth_le_31 (y m : Nat) : daysInMonth y m ≤ 31 := by
  simp only [daysInMonth]
  split
  · split <;> omega
  · split <;> omega

/-- Core of the format-extract round trip: an all-uppercase month word that
the table maps to `mn`, a day of at most two digits, and a four-digit year
pass through `parse_date` via pattern 2, patterns 0 and 1 failing. -/
theorem parse_roundtrip_core {M : List Char} {mn y d : Nat}
    (hM : M ≠ []) (hMu : ∀ x ∈ M, isUp x = true) (hTI : noTI M = true)
    (hmn : monthNum M = some mn) (hmn1 : 1 ≤ mn) (hmn2 : mn ≤ 12)
    (hy1 : 1900 ≤ y) (hy2 : y ≤ 2100) (hd1 : 1 ≤ d) (hd2 : d ≤ 31)
    (hcal : d ≤ daysInMonth y mn) :
    parse_date (M ++ ' ' :: (natDigits d ++ ',' :: ' ' :: natDigits y)) =
      some ⟨y, mn, d⟩ := by
  obtain ⟨hDne, hDd, hDl⟩ := natDigits31_facts hd1 hd2
  have hYeq : natDigits y = [digitChar (y / 1000), digitChar (y / 100 % 10),
      digitChar (y / 10 % 10), digitChar (y % 10)] := natDigits_four (by omega) (by omega)
  have hy1000 : isDig (digitChar (y / 1000)) = true := digitChar_isDig (by omega)
  have hy100 : isDig (digitChar (y / 100 % 10)) = true := digitChar_isDig (by omega)
  have hy10 : isDig (digitChar (y / 10 % 10)) = true := digitChar_isDig (by omega)
  have hy0 : isDig (digitChar (y % 10)) = true := digitChar_isDig (by omega)
  set s : List Char := M ++ ' ' :: (natDigits d ++ ',' :: ' ' :: natDigits y) with hs
  have hsLo : ∀ c ∈ s, isLo c = false := by
    intro c hc
    rw [hs] at hc
    simp only [List.mem_append, List.mem_cons] at hc
    rcases hc with hc | hc | hc
    · exact isUp_not_lo (hMu c hc)
    · subst hc; decide
    · rcases hc with hc | hc | hc | hc
      · exact isDig_not_lo (hDd c hc)
      · subst hc; decide
      · subst hc; decide
      · rw [hYeq] at hc
        simp only [List.mem_cons, List.not_mem_nil, or_false] at hc
        rcases hc with hc | hc | hc | hc <;> subst hc
        · exact isDig_not_lo hy1000
        · exact isDig_not_lo hy100
        · exact isDig_not_lo hy10
        · exact isDig_not_lo hy0
  have hsTI : noTI s = true := by
    rw [hs]
    have hY : noTI (natDigits y) = true := by
      rw [hYeq]
      exact noTI_digits (by
        intro x hx
        simp only [List.mem_cons, List.not_mem_nil, or_false] at hx
        rcases hx with hx | hx | hx | hx <;> subst hx <;> assumption)
    have h1 : noTI (' ' :: natDigits y) = true := noTI_cons_of (by decide) hY
    have h2 : noTI (',' :: ' ' :: natDigits y) = true := noTI_cons_of (by decide) h1
    have h3 : noTI (natDigits d ++ ',' :: ' ' :: natDigits y) = true :=
      noTI_digits_append hDd h2
    have h4 : noTI (' ' :: (natDigits d ++ ',' :: ' ' :: natDigits y)) = true :=
      noTI_cons_of (by decide) h3
    exact noTI_append hTI h4 (fun _ => by decide)
  have hs1 : search1 s = none := search1_none_of_noTI hsTI
  have hs2 : search2 s = none := search2_none_of_noLo hsLo
  have hs3 : search3 s = some (M, natDigits d, natDigits y) := by
    have := mUpDY_fmt (a := digitChar (y / 1000)) (b := digitChar (y / 100 % 10))
      (c := digitChar (y / 10 % 10)) (e := digitChar (y % 10))
      hM hMu hDne hDd hDl hy1000 hy100 hy10 hy0
    rw [← hYeq] at this
    exact searchPos_head (by rw [hs]; exact this)
  have htry : tryGroups (M, natDigits d, natDigits y) = some ⟨y, mn, d⟩ :=
    tryGroups_eval (isalphaL_of_upper hM hMu) hmn (digitsVal_natDigits31 hd1 hd2)
      (digitsVal_natDigits_year hy1 hy2) ⟨hmn1, hmn2, hd1, hd2, hy1, hy2⟩ hcal
  have hsplit : date_patterns = [search1, search2] ++ search3 ::
      [search4, search5, search6, search7, search8] := rfl
  rw [show parse_date s = parse_date_aux date_patterns s from rfl, hsplit,
    parse_date_aux_app_none (by
      intro q hq
      simp only [List.mem_cons, List.not_mem_nil, or_false] at hq
      rcases hq with hq | hq <;> subst hq
      · exact patRes_none_of_search hs1
      · exact patRes_none_of_search hs2)]
  exact parse_date_aux_head (by simp [patRes, hs3, htry])

theorem char_eq_of_toNat {x y : Char} (h : x.toNat = y.toNat) : x = y :=
  Char.ext (UInt32.ext h)

theorem lexLt_cons_info {a c : Char} {as cs : List Char}
    (h : lexLt (a :: as) (c :: cs) = true) :
    a.toNat < c.toNat ∨ (a = c ∧ lexLt as cs = true) := by
  simp only [lexLt] at h
  by_cases h1 : a.toNat < c.toNat
  · exact Or.inl h1
  · by_cases h2 : c.toNat < a.toNat
    · rw [if_neg h1, if_pos h2] at h
      exact absurd h (by simp)
    · rw [if_neg h1, if_neg h2] at h
      exact Or.inr ⟨char_eq_of_toNat (by omega), h⟩

theorem lexLt_cons_lt {a c : Char} {as cs : List Char} (h : a.toNat < c.toNat) :
    lexLt (a :: as) (c :: cs) = true := by
  simp only [lexLt]
  rw [if_pos h]

theorem lexLt_cons_tail {a : Char} {as cs : List Char} (h : lexLt as cs = true) :
    lexLt (a :: as) (a :: cs) = true := by
  simp only [lexLt]
  rw [if_neg (by omega), if_neg (by omega)]
  exact h

theorem lexLt_asymm : ∀ {a b : List Char}, lexLt a b = true → lexLt b a = false := by
  intro a
  induction a with
  | nil =>
    intro b h
    cases b with
    | nil => simp [lexLt] at h
    | cons x xs => simp [lexLt]
  | cons x xs ih =>
    intro b h
    cases b with
    | nil => simp [lexLt] at h
    | cons y ys =>
      rcases lexLt_cons_info h with h1 | ⟨rfl, h2⟩
      · simp only [lexLt]
        rw [if_neg (by omega), if_pos h1]
      · simp only [lexLt]
        rw [if_neg (by omega), if_neg (by omega)]
        exact ih h2

theorem lexLt_eq_of_not : ∀ {a b : List Char}, lexLt a b = false → lexLt b a = false →
    a = b := by
  intro a
  induction a with
  | nil =>
    intro b h1 _
    cases b with
    | nil => rfl
    | cons x xs => simp [lexLt] at h1
  | cons x xs ih =>
    intro b h1 h2
    cases b with
    | nil => simp [lexLt] at h2
    | cons y ys =>
      simp only [lexLt] at h1 h2
      by_cases hxy : x.toNat < y.toNat
      · rw [if_pos hxy] at h1
        exact absurd h1 (by simp)
      · by_cases hyx : y.toNat < x.toNat
        · rw [if_pos hyx] at h2
          exact absurd h2 (by simp)
        · rw [if_neg hxy, if_neg hyx] at h1
          rw [if_neg hyx, if_neg hxy] at h2
          have hx : x = y := char_eq_of_toNat (by omega)
          rw [hx, ih h1 h2]

theorem lexLt_between : ∀ {x z : List Char}, lexLt x z = true → ∀ y,
    lexLt x y = true ∨ lexLt y z = true := by
  intro x
  induction x with
  | nil =>
    intro z h y
    cases z with
    | nil => simp [lexLt] at h
    | cons c cs =>
      cases y with
      | nil => right; simp [lexLt]
      | cons b bs => left; simp [lexLt]
  | cons a as ih =>
    intro z h y
    cases z with
    | nil => simp [lexLt] at h
    | cons c cs =>
      cases y with
      | nil => right; simp [lexLt]
      | cons b bs =>
        by_cases hab : a.toNat < b.toNat
        · exact Or.inl (lexLt_cons_lt hab)
        · by_cases hba : b.toNat < a.toNat
          · right
            rcases lexLt_cons_info h with h1 | ⟨rfl, _⟩
            · exact lexLt_cons_lt (by omega)
            · exact lexLt_cons_lt hba
          · have hEq : a = b := char_eq_of_toNat (by omega)
            subst hEq
            rcases lexLt_cons_info h with h1 | ⟨rfl, htail⟩
            · exact Or.inr (lexLt_cons_lt h1)
            · rcases ih htail bs with h2 | h2
              · exact Or.inl (lexLt_cons_tail h2)
              · exact Or.inr (lexLt_cons_tail h2)

theorem pageLe_total {a b : Page} (h : pageLe a b = false) : pageLe b a = true := by
  have h' : lexLt b.name.data a.name.data = true := by
    cases hx : lexLt b.name.data a.name.data with
    | true => rfl
    | false => rw [pageLe, hx] at h; exact absurd h (by simp)
  rw [pageLe, lexLt_asymm h']
  rfl

theorem pageLe_trans {a b c : Page} (h1 : pageLe a b = true) (h2 : pageLe b c = true) :
    pageLe a c = true := by
  simp only [pageLe, Bool.not_eq_true'] at h1 h2 ⊢
  cases hca : lexLt c.name.data a.name.data with
  | false => rfl
  | true =>
    rcases lexLt_between hca b.name.data with h | h
    · rw [h] at h2; exact h2
    · rw [h] at h1; exact h1

theorem pageLt_of_le_of_ne {a b : Page} (h1 : pageLe a b = true)
    (h2 : a.name ≠ b.name) : pageLt a b := by
  simp only [pageLe, Bool.not_eq_true'] at h1
  cases hab : lexLt a.name.data b.name.data with
  | true => exact hab
  | false =>
    exact absurd (congrArg String.mk (lexLt_eq_of_not hab h1)) h2

theorem mem_orderedInsert {p x : Page} : ∀ {l : List Page},
    x ∈ orderedInsert p l → x = p ∨ x ∈ l := by
  intro l
  induction l with
  | nil => intro h; simp [orderedInsert] at h; simp [h]
  | cons q qs ih =>
    intro h
    simp only [orderedInsert] at h
    by_cases hle : pageLe p q = true
    · rw [if_pos hle] at h
      rcases List.mem_cons.mp h with h | h
      · exact Or.inl h
      · exact Or.inr h
    · rw [if_neg hle] at h
      rcases List.mem_cons.mp h with h | h
      · exact Or.inr (by simp [h])
      · rcases ih h with h | h
        · exact Or.inl h
        · exact Or.inr (by simp [h])

theorem orderedInsert_perm (p : Page) : ∀ (l : List Page),
    List.Perm (orderedInsert p l) (p :: l) := by
  intro l
  induction l with
  | nil => simp [orderedInsert]
  | cons q qs ih =>
    simp only [orderedInsert]
    by_cases hle : pageLe p q = true
    · rw [if_pos hle]
    · rw [if_neg hle]
      exact (ih.cons q).trans (List.Perm.swap p q qs)

theorem sortPages_perm : ∀ (ps : List Page), List.Perm (sortPages ps) ps := by
  intro ps
  induction ps with
  | nil => simp [sortPages]
  | cons p l ih =>
    exact (orderedInsert_perm p (sortPages l)).trans (ih.cons p)

theorem pairwise_orderedInsert {p : Page} : ∀ {l : List Page},
    l.Pairwise (fun a b => pageLe a b = true) →
    (orderedInsert p l).Pairwise (fun a b => pageLe a b = true) := by
  intro l
  induction l with
  | nil => intro _; simp [orderedInsert]
  | cons q qs ih =>
    intro h
    rw [List.pairwise_cons] at h
    simp only [orderedInsert]
    by_cases hle : pageLe p q = true
    · rw [if_pos hle, List.pairwise_cons]
      refine ⟨?_, List.pairwise_cons.mpr h⟩
      intro x hx
      rcases List.mem_cons.mp hx with rfl | hx
      · exact hle
      · exact pageLe_trans hle (h.1 x hx)
    · rw [if_neg hle, List.pairwise_cons]
      refine ⟨?_, ih h.2⟩
      intro x hx
      rcases mem_orderedInsert hx with rfl | hx
      · exact pageLe_total (by simpa using hle)
      · exact h.1 x hx

theorem sortPages_pairwise : ∀ (ps : List Page),
    (sortPages ps).Pairwise (fun a b => pageLe a b = true) := by
  intro ps
  induction ps with
  | nil => simp [sortPages]
  | cons p l ih => exact pairwise_orderedInsert ih

theorem pairwise_lt_names : ∀ {l : List Page},
    l.Pairwise (fun a b => pageLe a b = true) → (l.map Page.name).Nodup →
    l.Pairwise pageLt := by
  intro l
  induction l with
  | nil => intro _ _; simp
  | cons p l ih =>
    intro h1 h2
    rw [List.pairwise_cons] at h1
    simp only [List.map_cons, List.nodup_cons] at h2
    rw [List.pairwise_cons]
    constructor
    · intro q hq
      refine pageLt_of_le_of_ne (h1.1 q hq) ?_
      intro he
      exact h2.1 (he ▸ List.mem_map_of_mem Page.name hq)
    · exact ih h1.2 h2.2

theorem organizeFrom_length : ∀ (s : Option (List Char)) (ps : List Page),
    (organizeFrom s ps).length = ps.length := by
  intro s ps
  induction ps generalizing s with
  | nil => rfl
  | cons p l ih => simp [organizeFrom, ih]

theorem organizeFrom_map_snd : ∀ (s : Option (List Char)) (ps : List Page),
    (organizeFrom s ps).map Prod.snd = ps := by
  intro s ps
  induction ps generalizing s with
  | nil => rfl
  | cons p l ih => simp [organizeFrom, ih]

theorem organizeFrom_get? : ∀ (qs : List Page) (s : Option (List Char)) (n : Nat),
    (organizeFrom s qs).get? n = (qs.get? n).map
      (fun p => (assignOf (stateAfter s (qs.take (n + 1))), p)) := by
  intro qs
  induction qs with
  | nil => intro s n; simp [organizeFrom]
  | cons p ps ih =>
    intro s n
    cases n with
    | zero =>
      simp [organizeFrom, stateAfter]
    | succ m =>
      simp only [organizeFrom, List.get?_cons_succ, List.take_succ_cons]
      rw [ih (stepState s p.text) m]
      simp [stateAfter]

theorem mAt6_shape {s : List Char} {g : List Char × List Char × List Char}
    (h : mAt6 s = some g) :
    (g.1 ≠ [] ∧ ∀ x ∈ g.1, isDig x = true) ∧
    (g.2.1 ≠ [] ∧ ∀ x ∈ g.2.1, isDig x = true) ∧
    ((∀ x ∈ g.2.2, isDig x = true) ∧ g.2.2.length ≤ 2) := by
  unfold mAt6 at h
  split at h
  next a b c d r1 =>
    split at h
    next hd4 =>
      split at h
      next r2 =>
        dsimp only at h
        split at h
        next => exact absurd h (by simp)
        next hmg =>
          split at h
          next => exact absurd h (by simp)
          next =>
            split at h
            next r4 =>
              split at h
              next => exact absurd h (by simp)
              next =>
                rw [Option.some.injEq] at h
                subst h
                refine ⟨⟨by simp, ?_⟩, ⟨hmg, fun x hx => grabRun_mem hx⟩,
                  ⟨fun x hx => grabRun_mem (List.take_subset 2 _ hx), ?_⟩⟩
                · intro x hx
                  simp only [List.mem_cons, List.not_mem_nil, or_false] at hx
                  rcases hx with rfl | rfl | rfl | rfl
                  · exact hd4.1
                  · exact hd4.2.1
                  · exact hd4.2.2.1
                  · exact hd4.2.2.2
                · simp only [List.length_take]
                  omega
            next => exact absurd h (by simp)
      next => exact absurd h (by simp)
    next => exact absurd h (by simp)
  next => exact absurd h (by simp)

theorem digitsVal_lt100 {l : List Char} (hd : ∀ x ∈ l, isDig x = true)
    (hl : l.length ≤ 2) : digitsVal l < 100 := by
  cases l with
  | nil => simp [digitsVal]
  | cons a l1 =>
    cases l1 with
    | nil =>
      have := isDig_iff.mp (hd a (by simp))
      simp only [digitsVal, List.foldl]
      omega
    | cons b l2 =>
      cases l2 with
      | nil =>
        have ha := isDig_iff.mp (hd a (by simp))
        have hb := isDig_iff.mp (hd b (by simp))
        simp only [digitsVal, List.foldl]
        omega
      | cons c t => simp at hl

theorem isalphaL_false_of_digits {l : List Char} (h : l ≠ [])
    (hd : ∀ x ∈ l, isDig x = true) : isalphaL l = false := by
  obtain ⟨a, as, rfl⟩ := List.exists_cons_of_ne_nil h
  have ha : isAl a = false := by
    simp [isAl, isDig_not_up (hd a (by simp)), isDig_not_lo (hd a (by simp))]
  simp [isalphaL, ha]

theorem tryGroups_none_of_short_year {g : List Char × List Char × List Char}
    (h1 : g.1 ≠ []) (hd1 : ∀ x ∈ g.1, isDig x = true)
    (h2 : g.2.1 ≠ []) (hd2 : ∀ x ∈ g.2.1, isDig x = true)
    (hd3 : ∀ x ∈ g.2.2, isDig x = true) (hl : g.2.2.length ≤ 2) :
    tryGroups g = none := by
  have hy : digitsVal g.2.2 < 100 := digitsVal_lt100 hd3 hl
  have e1 : isalphaL g.1 = false := isalphaL_false_of_digits h1 hd1
  have e2 : isalphaL g.2.1 = false := isalphaL_false_of_digits h2 hd2
  have hno : ¬(1 ≤ digitsVal g.1 ∧ digitsVal g.1 ≤ 12 ∧ 1 ≤ digitsVal g.2.1 ∧
      digitsVal g.2.1 ≤ 31 ∧ 1900 ≤ digitsVal g.2.2 ∧ digitsVal g.2.2 ≤ 2100) := by
    intro hb
    omega
  simp only [tryGroups, e1, e2]
  simp [hno]

/-- Pattern 5 (`(\d{4})-(\d{1,2})-(\d{1,2})`, the numeric Y-M-D pattern) can
never contribute a date: `parse_date` reads its three groups as
(month, day, year), so the "year" comes from the final `(\d{1,2})` group,
is at most two digits, and always fails the `1900 <= year` bound. -/
theorem pattern6_dead : ∀ t : List Char, patRes search6 t = none := by
  intro t
  cases h : search6 t with
  | none => simp [patRes, h]
  | some g =>
    have h' : searchPos mAt6 t = some g := h
    obtain ⟨u, w, rfl, hw⟩ := searchPos_split h'
    obtain ⟨⟨ha, hb⟩, ⟨hc, hd⟩, he, hf⟩ := mAt6_shape hw
    simp [patRes, h, tryGroups_none_of_short_year ha hb hc hd he hf]

/-- C1 (amended): for every (year, month, day) with 1900 ≤ year ≤ 2100,
1 ≤ month ≤ 12 and 1 ≤ day ≤ days-in-month(year, month) — the calendar
validity that the `datetime` constructor enforces — formatting the triple
as "MONTH D, YYYY" (month name upper-cased, the form in which text reaches
the extractor after OCR normalization) and running `parse_date` returns
exactly that triple. -/
theorem C1_uppercase_roundtrip_calendar_valid (y m d : Nat)
    (hy1 : 1900 ≤ y) (hy2 : y ≤ 2100) (hm1 : 1 ≤ m) (hm2 : m ≤ 12)
    (hd1 : 1 ≤ d) (hcal : d ≤ daysInMonth y m) :
    parse_date (fmtDate y m d) = some ⟨y, m, d⟩ := by
  have hd2 : d ≤ 31 := le_trans hcal (daysInMonth_le_31 y m)
  show parse_date (monthName m ++ ' ' :: (natDigits d ++ ',' :: ' ' :: natDigits y)) = _
  interval_cases m <;>
    exact parse_roundtrip_core (by decide) (by decide) (by decide) (by decide)
      (by decide) (by decide) hy1 hy2 hd1 hd2 hcal

/-- C1 counterexample: (1971, 2, 31) satisfies all the claimed bounds
(month in [1,12], day in [1,31], year in [1900,2100]), yet extracting from
the formatted text "FEBRUARY 31, 1971" yields none, not the triple: the
day is validated against the real month length by the `datetime`
constructor, so validation is not "bounds only". -/
theorem C1_counterexample :
    fmtDate 1971 2 31 = "FEBRUARY 31, 1971".data ∧
    parse_date (fmtDate 1971 2 31) = none ∧
    parse_date (fmtDate 1971 2 31) ≠ some ⟨1971, 2, 31⟩ :=
  ⟨by decide, by decide, by decide⟩

/-- C1 witness: the round trip at the concrete date January 5, 1971. -/
theorem C1_witness : parse_date (fmtDate 1971 1 5) = some ⟨1971, 1, 5⟩ :=
  C1_uppercase_roundtrip_calendar_valid 1971 1 5 (by decide) (by decide)
    (by decide) (by decide) (by decide) (by decide)

/-- C2: the boundary classifier returns true iff at least two indicator
phrases occur as substrings of the page text, or the date extractor
succeeds on it and at least one indicator occurs; in particular any text
containing at least two of the fixed indicators is classified as a
boundary regardless of date presence. -/
theorem C2_boundary_decision_rule (t : List Char) :
    (is_meeting_start_page t = true ↔
      2 ≤ indicatorCount t ∨
        ((parse_date t).isSome = true ∧ 1 ≤ indicatorCount t)) ∧
    (2 ≤ indicatorCount t → is_meeting_start_page t = true) := by
  constructor
  · simp [is_meeting_start_page, Bool.or_eq_true, Bool.and_eq_true,
      decide_eq_true_eq]
  · intro h
    simp [is_meeting_start_page, h]

/-- C2 witness: a concrete header page with two indicators. -/
theorem C2_witness :
    is_meeting_start_page ("MEETING OF THE BOARD OF EDUCATION".data) = true :=
  (C2_boundary_decision_rule ("MEETING OF THE BOARD OF EDUCATION".data)).2
    (by decide)

/-- C3 (code bug): the numeric Y-M-D pattern never produces a date.
`parse_date` reads the three captured groups positionally as
(month, day, year), so for "1971-5-6" — whose components satisfy the
bounds and which no higher-priority pattern matches — it takes
month := 1971, failing the month bound; in general the final `(\d{1,2})`
group becomes the "year", is at most two digits, and always fails
`1900 <= year`, so the pattern's result is always rejected. -/
theorem C3_ymd_pattern_dead :
    parse_date ("1971-5-6".data) = none ∧
    search6 ("1971-5-6".data) = some ("1971".data, "5".data, "6".data) ∧
    (∀ t : List Char, patRes search6 t = none) :=
  ⟨by decide, by decide, pattern6_dead⟩

/-- C4 (code bug): month-name resolution is not case-insensitive. The
mixed-case pattern matches "January 5, 1971" and captures "January", but
the month table has only uppercase keys, so the lookup fails, the pattern
is abandoned, and extraction returns none, while the upper-cased form
"JANUARY 5, 1971" extracts to (1971, 1, 5). -/
theorem C4_mixed_case_month_lookup_fails :
    parse_date ("January 5, 1971".data) = none ∧
    parse_date ("JANUARY 5, 1971".data) = some ⟨1971, 1, 5⟩ ∧
    search2 ("January 5, 1971".data) =
      some ("January".data, "5".data, "1971".data) ∧
    monthNum ("January".data) = none ∧
    monthNum ("JANUARY".data) = some 1 :=
  ⟨by decide, by decide, by decide, by decide, by decide⟩

/-- C5: a page classified as a boundary whose date cannot be parsed leaves
the organizer's current-open-group state unchanged: no new group opens,
and the page is appended to the group that was already open before the
page was visited (or to "unassigned" when none was open). -/
theorem C5_undated_boundary_keeps_group (s : Option (List Char)) (p : Page)
    (ps : List Page) (h1 : is_meeting_start_page p.text = true)
    (h2 : parse_date p.text = none) :
    stepState s p.text = s ∧
      organizeFrom s (p :: ps) = (assignOf s, p) :: organizeFrom s ps := by
  have hstep : stepState s p.text = s := by
    simp [stepState, h1, h2]
  exact ⟨hstep, by simp [organizeFrom, hstep]⟩

/-- C5 witness: "THE BOARD OF EDUCATION" is boundary-positive (two nested
indicators) but has no parseable date; with a group already open the state
is unchanged and the page joins that group. -/
theorem C5_witness :
    stepState (some ("1971-01-05".data)) ("THE BOARD OF EDUCATION".data) =
        some ("1971-01-05".data) ∧
      organizeFrom (some ("1971-01-05".data))
          [⟨"b", "THE BOARD OF EDUCATION".data⟩] =
        [("1971-01-05".data, ⟨"b", "THE BOARD OF EDUCATION".data⟩)] := by
  have h := C5_undated_boundary_keeps_group (some ("1971-01-05".data))
    ⟨"b", "THE BOARD OF EDUCATION".data⟩ [] (by decide) (by decide)
  exact ⟨h.1, by rw [h.2]; rfl⟩

/-- C6: `organize_files` sorts the pages by filename — with distinct sort
keys the visit order is strictly increasing — and emits exactly one
(group, page) pair per page in visit order (a permutation of the input);
each page's group is the one open at the moment it is visited (after its
own boundary update) or "unassigned" when no group has ever been opened;
in particular a leading page with no indicators and no date is assigned
to "unassigned". -/
theorem C6_visit_order_and_assignment (ps : List Page) :
    ((ps.map Page.name).Nodup → (sortPages ps).Pairwise pageLt) ∧
    ((organize_files ps).map Prod.snd = sortPages ps ∧
      List.Perm (sortPages ps) ps) ∧
    (∀ n : Nat, (organize_files ps).get? n = ((sortPages ps).get? n).map
      (fun p => (assignOf (stateAfter initState ((sortPages ps).take (n + 1))), p))) ∧
    (∀ q rest, sortPages ps = q :: rest → indicatorCount q.text = 0 →
      parse_date q.text = none →
      (organize_files ps).head? = some (unassignedKey, q)) := by
  refine ⟨?_, ⟨organizeFrom_map_snd _ _, sortPages_perm ps⟩, ?_, ?_⟩
  · intro hnd
    refine pairwise_lt_names (sortPages_pairwise ps) ?_
    exact (((sortPages_perm ps).map Page.name).nodup_iff).mpr hnd
  · intro n
    exact organizeFrom_get? (sortPages ps) initState n
  · intro q rest hsort hcount hnone
    have hb : is_meeting_start_page q.text = false := by
      simp [is_meeting_start_page, hcount, hnone]
    show (organizeFrom initState (sortPages ps)).head? = _
    rw [hsort]
    simp [organizeFrom, stepState, hb, assignOf, initState]

/-- C6 witness: two pages given out of name order are visited in sorted
order, each assigned exactly once, and the leading empty page lands in
"unassigned". -/
theorem C6_witness :
    (sortPages [(⟨"b", []⟩ : Page), ⟨"a", []⟩]).Pairwise pageLt ∧
    (organize_files [(⟨"b", []⟩ : Page), ⟨"a", []⟩]).map Prod.snd =
      sortPages [(⟨"b", []⟩ : Page), ⟨"a", []⟩] ∧
    (organize_files [(⟨"b", []⟩ : Page), ⟨"a", []⟩]).head? =
      some (unassignedKey, ⟨"a", []⟩) := by
  have h := C6_visit_order_and_assignment [(⟨"b", []⟩ : Page), ⟨"a", []⟩]
  exact ⟨h.1 (by decide), h.2.1.1,
    h.2.2.2 ⟨"a", []⟩ [⟨"b", []⟩] (by decide) (by decide) (by decide)⟩

/-- C7: `parse_date` tries the patterns in their fixed priority order: if
every earlier pattern contributes nothing (no match, or a match whose
values fail lookup or validation) and pattern `p` yields a valid date,
that date is the result and later patterns are not consulted; if every
pattern contributes nothing the result is none. -/
theorem C7_first_valid_pattern_wins (t : List Char) :
    (∀ (ps1 : List (List Char → Option (List Char × List Char × List Char)))
      (p : List Char → Option (List Char × List Char × List Char))
      (ps2 : List (List Char → Option (List Char × List Char × List Char)))
      (dte : YMD), date_patterns = ps1 ++ p :: ps2 →
      (∀ q ∈ ps1, patRes q t = none) → patRes p t = some dte →
      parse_date t = some dte) ∧
    ((∀ q ∈ date_patterns, patRes q t = none) → parse_date t = none) := by
  constructor
  · intro ps1 p ps2 dte hsplit hnone hp
    show parse_date_aux date_patterns t = some dte
    rw [hsplit, parse_date_aux_app_none hnone]
    exact parse_date_aux_head hp
  · intro h
    exact parse_date_aux_none h

/-- C7 witness: on "12/25/1971" patterns 1-4 contribute nothing and the
M/D/Y pattern supplies the result. -/
theorem C7_witness : parse_date ("12/25/1971".data) = some ⟨1971, 12, 25⟩ :=
  (C7_first_valid_pattern_wins ("12/25/1971".data)).1
    [search1, search2, search3, search4] search5 [search6, search7, search8]
    ⟨1971, 12, 25⟩ rfl
    (by
      intro q hq
      simp only [List.mem_cons, List.not_mem_nil, or_false] at hq
      rcases hq with rfl | rfl | rfl | rfl <;> decide)
    (by decide)

/-- C8: a run of the organizer is deterministic and stateless across runs:
each run computes its assignment from the freshly initialized "no open
group" state (`initState = none`, as `__init__` sets it), so two runs over
the same ordered page sequence produce identical assignments. -/
theorem C8_organize_deterministic (ps : List Page)
    (r1 r2 : List (List Char × Page))
    (h1 : organize_files ps = r1) (h2 : organize_files ps = r2) :
    r1 = r2 ∧ organize_files ps = organizeFrom none (sortPages ps) := by
  subst h1
  subst h2
  exact ⟨rfl, rfl⟩

/-- C8 witness: two runs over a concrete one-page sequence agree. -/
theorem C8_witness :
    organize_files [(⟨"a", "X".data⟩ : Page)] =
        organize_files [(⟨"a", "X".data⟩ : Page)] ∧
      organize_files [(⟨"a", "X".data⟩ : Page)] =
        organizeFrom none (sortPages [(⟨"a", "X".data⟩ : Page)]) :=
  C8_organize_deterministic [(⟨"a", "X".data⟩ : Page)] _ _ rfl rfl

/-- C9: the classification core is total and best-effort: empty OCR text
counts as "no indicators, no date, not a boundary" rather than an error;
a pattern match with unusable values is silently skipped and a later
pattern may still supply the date (pattern 2 matches "XYZ 5, 1971", the
unknown month name is rejected, and the M/D/Y pattern then succeeds); and
the organizer emits an assignment for every page of the run, never
aborting early. -/
theorem C9_never_raises_best_effort :
    (indicatorCount [] = 0 ∧ parse_date [] = none ∧
      is_meeting_start_page [] = false) ∧
    (∀ (s : Option (List Char)) (ps : List Page),
      (organizeFrom s ps).length = ps.length) ∧
    (search3 ("XYZ 5, 1971 12/25/1971".data) =
        some ("XYZ".data, "5".data, "1971".data) ∧
      parse_date ("XYZ 5, 1971 12/25/1971".data) = some ⟨1971, 12, 25⟩) :=
  ⟨by decide, organizeFrom_length, by decide, by decide⟩

/-- C10: "BOARD OF EDUCATION" is a substring of "THE BOARD OF EDUCATION"
and "OKLAHOMA CITY" of "OKLAHOMA CITY, OKLAHOMA", so any text containing
either longer phrase contains two distinct indicators; its indicator
count is at least 2 and it is classified as a boundary whether or not a
date is present. -/
theorem C10_nested_indicator_double_count (t : List Char) :
    (occurs ("THE BOARD OF EDUCATION".data) t = true →
      2 ≤ indicatorCount t ∧ is_meeting_start_page t = true) ∧
    (occurs ("OKLAHOMA CITY, OKLAHOMA".data) t = true →
      2 ≤ indicatorCount t ∧ is_meeting_start_page t = true) := by
  constructor
  · intro h
    have h6 : occurs ("BOARD OF EDUCATION".data) t = true :=
      occurs_trans (by decide) h
    have hcount : 2 ≤ indicatorCount t := by
      simp only [indicatorCount, meeting_indicators, List.countP_cons,
        List.countP_nil, h, h6, if_true]
      omega
    exact ⟨hcount, by simp [is_meeting_start_page, hcount]⟩
  · intro h
    have h7 : occurs ("OKLAHOMA CITY".data) t = true :=
      occurs_trans (by decide) h
    have hcount : 2 ≤ indicatorCount t := by
      simp only [indicatorCount, meeting_indicators, List.countP_cons,
        List.countP_nil, h, h7, if_true]
      omega
    exact ⟨hcount, by simp [is_meeting_start_page, hcount]⟩

/-- C10 witness: a text containing both long phrases is double-counted on
both and classified as a boundary with no date present. -/
theorem C10_witness :
    (2 ≤ indicatorCount
        ("THE BOARD OF EDUCATION OKLAHOMA CITY, OKLAHOMA".data) ∧
      is_meeting_start_page
        ("THE BOARD OF EDUCATION OKLAHOMA CITY, OKLAHOMA".data) = true) ∧
    (2 ≤ indicatorCount
        ("THE BOARD OF EDUCATION OKLAHOMA CITY, OKLAHOMA".data) ∧
      is_meeting_start_page
        ("THE BOARD OF EDUCATION OKLAHOMA CITY, OKLAHOMA".data) = true) := by
  have h := C10_nested_indicator_double_count
    ("THE BOARD OF EDUCATION OKLAHOMA CITY, OKLAHOMA".data)
  exact ⟨h.1 (by decide), h.2 (by decide)⟩
